import Mathlib

/-!
Verification of the xo-server core: the cron Scheduler (`src/scheduler.js`,
class `Scheduler`) and the RPC dispatcher (`Api` in the same source file,
together with `checkPermission`, `checkParams`, `resolveParams` and
`checkAuthorizationByTypes`).

JavaScript objects used as string-keyed dictionaries (`this._schedules`,
`this._scheduleTable`, `this._cronJobs`, `params`, the method registry) are
embedded as association lists with unique keys; `obj[k] = v` keeps the key at
its existing position (or appends a fresh key), `delete obj[k]` removes it,
and a read of a missing key yields `undefined`, embedded as `none`.
-/

namespace Assoc

variable {α : Type}

/-- Read of `l[k]`: the value at the first matching key, `none` = `undefined`. -/
def lookupA : List (String × α) → String → Option α
  | [], _ => none
  | p :: t, k => if p.1 = k then some p.2 else lookupA t k

/-- JS `obj[k] = v`: replace in place when the key is present, append otherwise. -/
def setA : List (String × α) → String → α → List (String × α)
  | [], k, v => [(k, v)]
  | p :: t, k, v => if p.1 = k then (p.1, v) :: t else p :: setA t k v

/-- JS `delete obj[k]`. -/
def eraseA : List (String × α) → String → List (String × α)
  | [], _ => []
  | p :: t, k => if p.1 = k then eraseA t k else p :: eraseA t k

/-- The dictionary has no duplicated keys (automatic for JS objects). -/
def KeysND (l : List (String × α)) : Prop := (l.map Prod.fst).Nodup

/-- Number of bindings stored for one key. -/
def countKey : List (String × α) → String → Nat
  | [], _ => 0
  | p :: t, k => (if p.1 = k then 1 else 0) + countKey t k

theorem lookupA_setA (l : List (String × α)) (k : String) (v : α) (k' : String) :
    lookupA (setA l k v) k' = if k = k' then some v else lookupA l k' := by
  induction l with
  | nil => simp [setA, lookupA]
  | cons p t ih =>
    by_cases hp : p.1 = k
    · subst hp
      by_cases h : p.1 = k' <;> simp [setA, lookupA, h]
    · rw [setA, if_neg hp]
      by_cases h : p.1 = k'
      · have hkk : ¬ k = k' := fun hk => hp (h.trans hk.symm)
        simp [lookupA, h, hkk]
      · simp [lookupA, h, ih]

theorem lookupA_eraseA (l : List (String × α)) (k k' : String) :
    lookupA (eraseA l k) k' = if k = k' then none else lookupA l k' := by
  induction l with
  | nil => simp [eraseA, lookupA]
  | cons p t ih =>
    by_cases hp : p.1 = k
    · subst hp
      by_cases h : p.1 = k'
      · subst h
        simpa [eraseA] using ih
      · simp [eraseA, lookupA, h, ih]
    · rw [eraseA, if_neg hp]
      by_cases h : p.1 = k'
      · have hkk : ¬ k = k' := fun hk => hp (h.trans hk.symm)
        simp [lookupA, h, hkk]
      · simp [lookupA, h, ih]

theorem keys_setA (l : List (String × α)) (k : String) (v : α) :
    (setA l k v).map Prod.fst =
      if k ∈ l.map Prod.fst then l.map Prod.fst else l.map Prod.fst ++ [k] := by
  induction l with
  | nil => simp [setA]
  | cons p t ih =>
    by_cases hp : p.1 = k
    · subst hp
      simp [setA]
    · rw [setA, if_neg hp]
      have hne : ¬ k = p.1 := fun h => hp h.symm
      by_cases h : k ∈ t.map Prod.fst <;> simp [h, hne, ih]

theorem keys_eraseA_sublist (l : List (String × α)) (k : String) :
    List.Sublist ((eraseA l k).map Prod.fst) (l.map Prod.fst) := by
  induction l with
  | nil => simp [eraseA]
  | cons p t ih =>
    by_cases hp : p.1 = k
    · rw [eraseA, if_pos hp]
      exact ih.trans (List.sublist_cons_self _ _)
    · rw [eraseA, if_neg hp, List.map_cons, List.map_cons]
      exact ih.cons₂ p.1

theorem keysND_setA {l : List (String × α)} {k : String} {v : α}
    (h : KeysND l) : KeysND (setA l k v) := by
  rw [KeysND, keys_setA]
  by_cases hk : k ∈ l.map Prod.fst
  · simpa [hk] using h
  · rw [if_neg hk]
    refine List.Nodup.append h (List.nodup_singleton k) ?_
    intro a ha hb
    rw [List.mem_singleton] at hb
    exact hk (hb ▸ ha)

theorem keysND_eraseA {l : List (String × α)} {k : String}
    (h : KeysND l) : KeysND (eraseA l k) :=
  (keys_eraseA_sublist l k).nodup h

theorem lookupA_of_mem {l : List (String × α)} {p : String × α}
    (hnd : KeysND l) (hm : p ∈ l) : lookupA l p.1 = some p.2 := by
  induction l with
  | nil => cases hm
  | cons q t ih =>
    rw [KeysND, List.map_cons, List.nodup_cons] at hnd
    rcases List.mem_cons.mp hm with h | h
    · subst h; simp [lookupA]
    · have hne : ¬ q.1 = p.1 := by
        intro he
        exact hnd.1 (he ▸ List.mem_map_of_mem Prod.fst h)
      rw [lookupA, if_neg hne]
      exact ih hnd.2 h

theorem countKey_eq_zero_of_not_mem {l : List (String × α)} {k : String}
    (h : k ∉ l.map Prod.fst) : countKey l k = 0 := by
  induction l with
  | nil => rfl
  | cons p t ih =>
    rw [List.map_cons] at h
    have hp : ¬ p.1 = k := fun he => h (he ▸ List.mem_cons_self _ _)
    rw [countKey, if_neg hp, ih (fun hm => h (List.mem_cons_of_mem _ hm))]

theorem countKey_le_one {l : List (String × α)} (hnd : KeysND l) (k : String) :
    countKey l k ≤ 1 := by
  induction l with
  | nil => simp [countKey]
  | cons p t ih =>
    rw [KeysND, List.map_cons, List.nodup_cons] at hnd
    by_cases hp : p.1 = k
    · rw [countKey, if_pos hp, countKey_eq_zero_of_not_mem (hp ▸ hnd.1)]
    · rw [countKey, if_neg hp]
      simpa using ih hnd.2

end Assoc

/-!
## Scheduler (`src/scheduler.js`, class `Scheduler`)

State: `_schedules` (id → schedule record), `_scheduleTable` (id → enabled
flag) and `_cronJobs` (id → started `CronJob` handle).  A cron handle is
identified by the value of a fresh counter `nextTimer`, so that the handle
installed by a later `_enable` is distinguishable from any earlier one.
`new CronJob(...)` + `start()` is embedded as storing the fresh handle;
`stop()` + `delete` as removing it.

Every operation returns the error it throws to its caller (`none` = normal
return) together with the state left behind, since `remove` mutates state
even on the error path (its `finally` block).
-/

namespace Scheduler

open Assoc

structure Schedule where
  id : String
  cron : String
  job : String
  enabled : Bool
deriving DecidableEq, Repr

/-- The errors a scheduler call can throw: the `SchedulerError` subclasses of
`src/scheduler.js`, plus the runtime `TypeError` JavaScript raises when
`this._cronJobs[id]` is `undefined` and `.stop()` is called on it. -/
inductive JsError where
  | scheduleOverride (id : String)
  | noSuchSchedule (id : String)
  | scheduleNotEnabled (id : String)
  | scheduleAlreadyEnabled (id : String)
  | scheduleJobNotFound (jobId : String) (scheduleId : String)
  | typeError
deriving DecidableEq, Repr

/-- JS `exc instanceof SchedulerError`: true exactly for the `SchedulerError`
subclasses, false for any other error such as a `TypeError`. -/
def JsError.isSchedulerError : JsError → Bool
  | .typeError => false
  | _ => true

structure SchedState where
  schedules : List (String × Schedule)
  scheduleTable : List (String × Bool)
  cronJobs : List (String × Nat)
  nextTimer : Nat
deriving DecidableEq, Repr

/-- Source `exists (scheduleOrId)`: `id in this._schedules`. -/
def exists_ (st : SchedState) (id : String) : Bool :=
  (lookupA st.schedules id).isSome

/-- Source `isEnabled (scheduleOrId)`: `this._scheduleTable[id]`, `undefined`
(a missing entry) being falsy. -/
def isEnabled (st : SchedState) (id : String) : Bool :=
  (lookupA st.scheduleTable id).getD false

/-- Source `_enable (schedule)`: build a cron job bound to `schedule.cron`, store its
handle under `schedule.id`, start it, and mark the entry enabled. -/
def _enable (st : SchedState) (sch : Schedule) : SchedState :=
  { st with cronJobs := setA st.cronJobs sch.id st.nextTimer
            scheduleTable := setA st.scheduleTable sch.id true
            nextTimer := st.nextTimer + 1 }

/-- Source `_add (schedule)`: insert the record, mark the entry disabled, and enable
it when `schedule.enabled` is set. -/
def _add (st : SchedState) (sch : Schedule) : SchedState :=
  let st1 : SchedState :=
    { st with schedules := setA st.schedules sch.id sch
              scheduleTable := setA st.scheduleTable sch.id false }
  if sch.enabled then _enable st1 sch else st1

/-- Source `add (schedule)`: throw `ScheduleOverride` when the id is present,
otherwise `_add`. -/
def add (st : SchedState) (sch : Schedule) : Option JsError × SchedState :=
  if exists_ st sch.id then (some (.scheduleOverride sch.id), st)
  else (none, _add st sch)

/-- Source `_disable (scheduleOrId)`: throw `NoSuchSchedule` when absent,
`ScheduleNotEnabled` when not enabled; otherwise `this._cronJobs[id].stop()`
(a `TypeError` when no handle is stored), `delete this._cronJobs[id]`, and
mark the entry disabled.  All throws happen before any mutation. -/
def _disable (st : SchedState) (id : String) : Option JsError × SchedState :=
  if ¬ exists_ st id then (some (.noSuchSchedule id), st)
  else if ¬ isEnabled st id then (some (.scheduleNotEnabled id), st)
  else
    match lookupA st.cronJobs id with
    | none => (some .typeError, st)
    | some _ =>
      (none, { st with cronJobs := eraseA st.cronJobs id
                       scheduleTable := setA st.scheduleTable id false })

/-- The `finally` block of `remove`: `delete this._schedules[id]` and
`delete this._scheduleTable[id]` (note: not `this._cronJobs[id]`). -/
def purge (st : SchedState) (id : String) : SchedState :=
  { st with schedules := eraseA st.schedules id
            scheduleTable := eraseA st.scheduleTable id }

/-- The guard of `remove`'s catch block, `!exc instanceof SchedulerError`.
JavaScript parses this as `(!exc) instanceof SchedulerError`: `!exc` is a
primitive boolean, and `instanceof` applied to a primitive is always
`false`, whatever the error was. -/
def notExcInstanceofSchedulerError (_ : JsError) : Bool := false

/-- Source `remove (id)`: try `_disable`; in the catch block re-throw when
`!exc instanceof SchedulerError`; the `finally` block purges the two tables
in every case. -/
def remove (st : SchedState) (id : String) : Option JsError × SchedState :=
  match _disable st id with
  | (none, st1) => (none, purge st1 id)
  | (some e, st1) =>
    if notExcInstanceofSchedulerError e then (some e, purge st1 id)
    else (none, purge st1 id)

/-- Source `update (schedule)`: throw `NoSuchSchedule` when absent; `_disable` first
when currently enabled; then `_add` the new definition. -/
def update (st : SchedState) (sch : Schedule) : Option JsError × SchedState :=
  if ¬ exists_ st sch.id then (some (.noSuchSchedule sch.id), st)
  else if isEnabled st sch.id then
    match _disable st sch.id with
    | (some e, st1) => (some e, st1)
    | (none, st1) => (none, _add st1 sch)
  else (none, _add st sch)

/-- The `forEach` of `disableAll` over the entries of `this.scheduleTable`
(each visited once, with the value read for its own key): `_disable` every
enabled id.  A throw aborts the iteration. -/
def disableAllGo (st : SchedState) : List (String × Bool) → Option JsError × SchedState
  | [] => (none, st)
  | (id, enabled) :: rest =>
    if enabled then
      match _disable st id with
      | (some e, st1) => (some e, st1)
      | (none, st1) => disableAllGo st1 rest
    else disableAllGo st rest

/-- Source `disableAll ()`. -/
def disableAll (st : SchedState) : Option JsError × SchedState :=
  disableAllGo st st.scheduleTable

/-- The scheduler's runtime invariant: the three dictionaries are genuine JS
objects (unique keys — in particular at most one cron handle per id), the
record table and the enabled table cover the same ids, a cron handle is
stored for an id exactly when its entry is marked enabled, and every stored
handle was produced by a past value of the `nextTimer` counter. -/
structure SchedInv (st : SchedState) : Prop where
  ndSchedules : KeysND st.schedules
  ndTable : KeysND st.scheduleTable
  ndCron : KeysND st.cronJobs
  domEq : ∀ id, (lookupA st.schedules id).isSome = (lookupA st.scheduleTable id).isSome
  timerIffEnabled : ∀ id, (lookupA st.cronJobs id).isSome = true ↔
    lookupA st.scheduleTable id = some true
  handlesFresh : ∀ id t, lookupA st.cronJobs id = some t → t < st.nextTimer

end Scheduler

namespace Scheduler

open Assoc

theorem isEnabled_eq_true {st : SchedState} {id : String} :
    isEnabled st id = true ↔ lookupA st.scheduleTable id = some true := by
  rw [isEnabled]
  cases h : lookupA st.scheduleTable id <;> simp

theorem cron_none_of_not_enabled {st : SchedState} (h : SchedInv st) {id : String}
    (hen : isEnabled st id = false) : lookupA st.cronJobs id = none := by
  cases hc : lookupA st.cronJobs id with
  | none => rfl
  | some t =>
    have := (h.timerIffEnabled id).mp (by simp [hc])
    rw [isEnabled, this] at hen
    simp at hen

theorem inv_enable {st : SchedState} {sch : Schedule}
    (h : SchedInv st) (hex : exists_ st sch.id = true) : SchedInv (_enable st sch) := by
  obtain ⟨nd1, nd2, nd3, hdom, hiff, hfresh⟩ := h
  refine ⟨nd1, keysND_setA nd2, keysND_setA nd3, ?_, ?_, ?_⟩
  · intro id
    by_cases hid : sch.id = id
    · subst hid
      simpa [_enable, lookupA_setA] using hex
    · simpa [_enable, lookupA_setA, hid] using hdom id
  · intro id
    by_cases hid : sch.id = id
    · subst hid
      simp [_enable, lookupA_setA]
    · simpa [_enable, lookupA_setA, hid] using hiff id
  · intro id t hl
    simp only [_enable, lookupA_setA] at hl
    by_cases hid : sch.id = id
    · rw [if_pos hid] at hl
      cases hl
      exact Nat.lt_succ_self _
    · rw [if_neg hid] at hl
      exact Nat.lt_trans (hfresh id t hl) (Nat.lt_succ_self _)

theorem inv_add_ {st : SchedState} {sch : Schedule}
    (h : SchedInv st) (hen : isEnabled st sch.id = false) : SchedInv (_add st sch) := by
  have hcron : lookupA st.cronJobs sch.id = none := cron_none_of_not_enabled h hen
  obtain ⟨nd1, nd2, nd3, hdom, hiff, hfresh⟩ := h
  have h1 : SchedInv
      { st with schedules := setA st.schedules sch.id sch
                scheduleTable := setA st.scheduleTable sch.id false } := by
    refine ⟨keysND_setA nd1, keysND_setA nd2, nd3, ?_, ?_, ?_⟩
    · intro id
      by_cases hid : sch.id = id
      · simp [lookupA_setA, hid]
      · simpa [lookupA_setA, hid] using hdom id
    · intro id
      by_cases hid : sch.id = id
      · subst hid
        simp [lookupA_setA, hcron]
      · simpa [lookupA_setA, hid] using hiff id
    · intro id t hl
      exact hfresh id t hl
  rw [_add]
  by_cases he : sch.enabled
  · rw [if_pos he]
    refine inv_enable h1 ?_
    simp [exists_, lookupA_setA]
  · rw [if_neg he]
    exact h1

theorem inv_add {st : SchedState} {sch : Schedule}
    (h : SchedInv st) : SchedInv (add st sch).2 := by
  rw [add]
  by_cases hex : exists_ st sch.id
  · rw [if_pos hex]
    exact h
  · rw [if_neg hex]
    refine inv_add_ h ?_
    have hsch : lookupA st.schedules sch.id = none := by
      cases hl : lookupA st.schedules sch.id with
      | none => rfl
      | some s => exact absurd (by simp [exists_, hl]) hex
    have htab : lookupA st.scheduleTable sch.id = none := by
      have hd := h.domEq sch.id
      rw [hsch] at hd
      cases hl : lookupA st.scheduleTable sch.id with
      | none => rfl
      | some b => rw [hl] at hd; simp at hd
    simp [isEnabled, htab]

theorem disable_success {st : SchedState} {id : String}
    (h : SchedInv st) (hex : exists_ st id = true) (hen : isEnabled st id = true) :
    _disable st id =
      (none, { st with cronJobs := eraseA st.cronJobs id
                       scheduleTable := setA st.scheduleTable id false }) := by
  have htab : lookupA st.scheduleTable id = some true := isEnabled_eq_true.mp hen
  have hcron : (lookupA st.cronJobs id).isSome = true := (h.timerIffEnabled id).mpr htab
  rw [_disable, if_neg (by simp [hex]), if_neg (by simp [hen])]
  cases hc : lookupA st.cronJobs id with
  | none => rw [hc] at hcron; cases hcron
  | some t => rfl

theorem inv_disable {st : SchedState} (h : SchedInv st) (id : String) :
    SchedInv (_disable st id).2 := by
  by_cases hex : exists_ st id = true
  · by_cases hen : isEnabled st id = true
    · rw [disable_success h hex hen]
      obtain ⟨nd1, nd2, nd3, hdom, hiff, hfresh⟩ := h
      have htab : lookupA st.scheduleTable id = some true := isEnabled_eq_true.mp hen
      refine ⟨nd1, keysND_setA nd2, keysND_eraseA nd3, ?_, ?_, ?_⟩
      · intro id'
        by_cases hid : id = id'
        · subst hid
          simp [lookupA_setA, hdom id, htab]
        · simpa [lookupA_setA, hid] using hdom id'
      · intro id'
        by_cases hid : id = id'
        · subst hid
          simp [lookupA_setA, lookupA_eraseA]
        · simpa [lookupA_setA, lookupA_eraseA, hid] using hiff id'
      · intro id' t hl
        rw [lookupA_eraseA] at hl
        by_cases hid : id = id'
        · rw [if_pos hid] at hl; cases hl
        · rw [if_neg hid] at hl
          exact hfresh id' t hl
    · rw [_disable, if_neg (by simp [hex]), if_pos (by simp [hen])]
      exact h
  · rw [_disable, if_pos (by simp [hex])]
    exact h

theorem disable_error_state {st : SchedState} {id : String}
    (h : SchedInv st) (herr : (_disable st id).1 ≠ none) :
    (_disable st id).2 = st ∧ lookupA st.cronJobs id = none := by
  by_cases hex : exists_ st id = true
  · by_cases hen : isEnabled st id = true
    · rw [disable_success h hex hen] at herr
      simp at herr
    · exact ⟨by rw [_disable, if_neg (by simp [hex]), if_pos (by simp [hen])],
        cron_none_of_not_enabled h (by simpa using hen)⟩
  · refine ⟨by rw [_disable, if_pos (by simp [hex])], ?_⟩
    refine cron_none_of_not_enabled h ?_
    have : lookupA st.schedules id = none := by
      cases hl : lookupA st.schedules id with
      | none => rfl
      | some s => exact absurd (by simp [exists_, hl]) hex
    have htab : (lookupA st.scheduleTable id).isSome = false := by
      rw [← h.domEq id, this]
      rfl
    rw [isEnabled]
    cases hl : lookupA st.scheduleTable id with
    | none => rfl
    | some b => rw [hl] at htab; cases htab

theorem inv_purge {st : SchedState} {id : String}
    (h : SchedInv st) (hc : lookupA st.cronJobs id = none) : SchedInv (purge st id) := by
  obtain ⟨nd1, nd2, nd3, hdom, hiff, hfresh⟩ := h
  refine ⟨keysND_eraseA nd1, keysND_eraseA nd2, nd3, ?_, ?_, ?_⟩
  · intro id'
    by_cases hid : id = id'
    · simp [purge, lookupA_eraseA, hid]
    · simpa [purge, lookupA_eraseA, hid] using hdom id'
  · intro id'
    by_cases hid : id = id'
    · subst hid
      simp [purge, lookupA_eraseA, hc]
    · simpa [purge, lookupA_eraseA, hid] using hiff id'
  · intro id' t hl
    exact hfresh id' t hl

theorem inv_remove {st : SchedState} (h : SchedInv st) (id : String) :
    SchedInv (remove st id).2 := by
  rw [remove]
  by_cases hex : exists_ st id = true
  · by_cases hen : isEnabled st id = true
    · rw [disable_success h hex hen]
      have h1 : SchedInv (_disable st id).2 := inv_disable h id
      rw [disable_success h hex hen] at h1
      exact inv_purge h1 (by simp [lookupA_eraseA])
    · rw [_disable, if_neg (by simp [hex]), if_pos (by simp [hen])]
      exact inv_purge h (cron_none_of_not_enabled h (by simpa using hen))
  · rw [_disable, if_pos (by simp [hex])]
    refine inv_purge h ?_
    refine cron_none_of_not_enabled h ?_
    have hsch : lookupA st.schedules id = none := by
      cases hl : lookupA st.schedules id with
      | none => rfl
      | some s => exact absurd (by simp [exists_, hl]) hex
    have hd := h.domEq id
    rw [hsch] at hd
    rw [isEnabled]
    cases hl : lookupA st.scheduleTable id with
    | none => rfl
    | some b => rw [hl] at hd; simp at hd

theorem inv_update {st : SchedState} (h : SchedInv st) (sch : Schedule) :
    SchedInv (update st sch).2 := by
  rw [update]
  by_cases hex : exists_ st sch.id = true
  · rw [if_neg (by simp [hex])]
    by_cases hen : isEnabled st sch.id = true
    · rw [if_pos hen, disable_success h hex hen]
      have h1 : SchedInv (_disable st sch.id).2 := inv_disable h sch.id
      rw [disable_success h hex hen] at h1
      refine inv_add_ h1 ?_
      simp [isEnabled, lookupA_setA]
    · rw [if_neg hen]
      exact inv_add_ h (by simpa using hen)
  · rw [if_pos (by simp [hex])]
    exact h

theorem inv_disableAllGo : ∀ (xs : List (String × Bool)) (st : SchedState),
    SchedInv st →
    (∀ p ∈ xs, lookupA st.scheduleTable p.1 = some p.2) →
    (xs.map Prod.fst).Nodup →
    (disableAllGo st xs).1 = none ∧ SchedInv (disableAllGo st xs).2 := by
  intro xs
  induction xs with
  | nil =>
    intro st h _ _
    exact ⟨rfl, h⟩
  | cons p rest ih =>
    intro st h hlk hnd
    rw [List.map_cons, List.nodup_cons] at hnd
    obtain ⟨id, b⟩ := p
    have hhead : lookupA st.scheduleTable id = some b := hlk (id, b) (List.mem_cons_self _ _)
    cases b with
    | false =>
      rw [disableAllGo, if_neg (by simp)]
      exact ih st h (fun q hq => hlk q (List.mem_cons_of_mem _ hq)) hnd.2
    | true =>
      have hen : isEnabled st id = true := isEnabled_eq_true.mpr hhead
      have hex : exists_ st id = true := by
        have := h.domEq id
        rw [hhead] at this
        simpa [exists_] using this
      rw [disableAllGo, if_pos rfl, disable_success h hex hen]
      have h1 : SchedInv (_disable st id).2 := inv_disable h id
      rw [disable_success h hex hen] at h1
      refine ih _ h1 ?_ hnd.2
      intro q hq
      have hne : ¬ id = q.1 := by
        intro he
        refine hnd.1 ?_
        rw [he]
        exact List.mem_map.mpr ⟨q, hq, rfl⟩
      simp only [lookupA_setA, if_neg hne]
      exact hlk q (List.mem_cons_of_mem _ hq)

theorem inv_disableAll {st : SchedState} (h : SchedInv st) :
    (disableAll st).1 = none ∧ SchedInv (disableAll st).2 := by
  rw [disableAll]
  exact inv_disableAllGo st.scheduleTable st h
    (fun p hp => lookupA_of_mem h.ndTable hp) h.ndTable

/-- The six scheduler operations of the claim. -/
inductive SchedOp where
  | addOp (sch : Schedule)
  | removeOp (id : String)
  | updateOp (sch : Schedule)
  | enableOp (sch : Schedule)
  | disableOp (id : String)
  | disableAllOp

/-- Run one operation, keeping the state it leaves behind (also on a throw). -/
def SchedOp.apply : SchedOp → SchedState → Option JsError × SchedState
  | .addOp sch, st => add st sch
  | .removeOp id, st => remove st id
  | .updateOp sch, st => update st sch
  | .enableOp sch, st => (none, _enable st sch)
  | .disableOp id, st => _disable st id
  | .disableAllOp, st => disableAll st

/-- Call-site precondition: `_enable` is only ever invoked by `_add`, right
after the schedule has been inserted into the tables. -/
def SchedOp.pre : SchedOp → SchedState → Prop
  | .enableOp sch, st => exists_ st sch.id = true
  | _, _ => True

end Scheduler

/-!
## RPC dispatcher (`Api` and the `check*`/`resolveParams` helpers in
`src/scheduler.js`)

The collaborators the call context (`this`) carries are external to the two
source files: the object accessor `getObject`/`getObjects`, the permission
store `hasPermission` and the schema validator (`schema-inspector`).  They
are modelled from the spec where indicated.
-/

namespace Api

open Assoc

/-- The error kinds of `src/api-errors.js` used by the dispatcher pipeline. -/
inductive ApiError where
  | methodNotFound (n : String)
  | invalidParameters
  | unauthorized
  | noSuchObject
deriving DecidableEq, Repr

/-- The user attached to a call context: `user.get('id')` and
`user.hasPermission(permission)`. -/
structure User where
  id : String
  hasPermission : String → Bool

/-- A live object of the store: its id, its `type` tag, its reference fields
(`$network`, `$VM`, `$object`, `$host`, `VDI`, `$SR`, `$snapshot_of`, `VM`)
and its `$VBDs` list. -/
structure ApiObject where
  id : String
  type : String
  refs : List (String × String)
  vbds : List String
deriving DecidableEq, Repr

/-- Read of a reference field, `object[member]`. -/
def ApiObject.memberRef (o : ApiObject) (m : String) : Option String :=
  lookupA o.refs m

/-- The per-call context: the attached user (if any), the object store and
the permission store behind `this.hasPermission`. -/
structure ApiContext where
  user : Option User
  objects : List (String × ApiObject)
  permStore : String → String → String → Bool

/-- Modelled from the spec: the object accessor interface
`getObject(id, expectedTypes?) -> Object` consumed by parameter resolution
and the per-type authorization rules — looks the id up and fails
(`NoSuchObject`, here `none`) when the id does not resolve or the object's
type is not among the expected ones; `getObject(undefined)` fails. -/
def getObject (ctx : ApiContext) (id? : Option String)
    (types : Option (List String)) : Option ApiObject :=
  match id? with
  | none => none
  | some i =>
    match lookupA ctx.objects i with
    | none => none
    | some o =>
      match types with
      | none => some o
      | some ts => if o.type ∈ ts then some o else none

/-- Modelled from the spec: `getObjects(ids, type) -> list<Object>`, the bulk
accessor used by the `VDI` rule for `vdi.$VBDs`. -/
def getObjects (ctx : ApiContext) (ids : List String) (ty : String) : List ApiObject :=
  ids.filterMap (fun i => getObject ctx (some i) (some [ty]))

/-- Source `checkAuthorization` with the per-type rules of
`checkAuthorizationByTypes` and the fall-through
`defaultCheckAuthorization` (a permission-store lookup whose falsy result
is turned into a rejection by `throwIfFail`).  The result is `true` when
the returned promise fulfills and `false` when it rejects — a rejection
being either a failed check or a `getObject` throw from inside a rule.
`checkMemberAuthorization(member)` is inlined at its four use sites
(`message`/`$object`, `task`/`$host`, `VBD`/`VDI`, `VM-snapshot`/
`$snapshot_of`).  The containment graph is a DAG by construction, so the
recursion is bounded by an explicit depth argument `fuel`. -/
def checkAuthorization (ctx : ApiContext) :
    Nat → String → ApiObject → String → Bool
  | 0, _, _, _ => false
  | fuel + 1, userId, obj, permission =>
    if obj.type = "network" then true
    else if obj.type = "VM-template" then true
    else if obj.type = "message" then
      match getObject ctx (obj.memberRef "$object") none with
      | none => false
      | some mo => checkAuthorization ctx fuel userId mo permission
    else if obj.type = "task" then
      match getObject ctx (obj.memberRef "$host") none with
      | none => false
      | some mo => checkAuthorization ctx fuel userId mo permission
    else if obj.type = "VBD" then
      match getObject ctx (obj.memberRef "VDI") none with
      | none => false
      | some mo => checkAuthorization ctx fuel userId mo permission
    else if obj.type = "VDI" then
      -- each VBD's VM is resolved synchronously while the promise list is
      -- built, so one failed lookup rejects the whole rule; likewise for
      -- the containing SR; then `Bluebird.any`: one success suffices
      let vms? : Option (List ApiObject) :=
        (getObjects ctx obj.vbds "VBD").foldr
          (fun vbd acc =>
            match acc, getObject ctx (vbd.memberRef "VM") (some ["VM"]) with
            | some l, some vm => some (vm :: l)
            | _, _ => none)
          (some [])
      match vms?, getObject ctx (obj.memberRef "$SR") (some ["SR"]) with
      | some vms, some sr =>
        vms.any (fun vm => checkAuthorization ctx fuel userId vm permission) ||
          checkAuthorization ctx fuel userId sr permission
      | _, _ => false
    else if obj.type = "VIF" then
      -- `getObject(vif.$network)` and `getObject(vif.$VM)` run before
      -- `Bluebird.any([...])`; `any` fulfills when either check fulfills
      match getObject ctx (obj.memberRef "$network") none,
          getObject ctx (obj.memberRef "$VM") none with
      | some network, some vm =>
        checkAuthorization ctx fuel userId network permission ||
          checkAuthorization ctx fuel userId vm permission
      | _, _ => false
    else if obj.type = "VM-snapshot" then
      match getObject ctx (obj.memberRef "$snapshot_of") none with
      | none => false
      | some mo => checkAuthorization ctx fuel userId mo permission
    else
      ctx.permStore userId obj.id permission

/-- Source `checkPermission (method)`: no declared `permission` — skip; then a user
is required; the empty (falsy) permission requires nothing more; otherwise
`user.hasPermission(permission)` must hold.  `none` = the check passed. -/
def checkPermission (user : Option User) (permission : Option String) :
    Option ApiError :=
  match permission with
  | none => none
  | some p =>
    match user with
    | none => some .unauthorized
    | some u =>
      if p = "" then none
      else if u.hasPermission p then none
      else some .unauthorized

/-- A raw parameter value: a JSON scalar (only its string identity matters to
the pipeline) or a live object installed by parameter resolution. -/
inductive ParamValue where
  | str (s : String)
  | obj (o : ApiObject)
deriving DecidableEq, Repr

/-- The call's `params` object. -/
abbrev ParamsMap := List (String × ParamValue)

/-- One entry of a method's `resolve` spec,
`key: [param, types, permission = 'administrate']`. -/
structure ResolveEntry where
  key : String
  param : String
  types : List String
  permission : Option String
deriving DecidableEq, Repr

/-- A registered method: its metadata (`permission`, `params` schema,
`resolve` spec) and its body.  The schema check is modelled from the spec
as a predicate, `schema-inspector` being external; the body returns either
a thrown error or a value (`none` = `undefined`). -/
structure Method where
  permission : Option String
  paramsCheck : Option (ParamsMap → Bool)
  resolve : Option (List ResolveEntry)
  body : ParamsMap → Except ApiError (Option Nat)

/-- Source `checkParams (method, params)`: no schema — no validation; otherwise an
invalid shape throws `InvalidParameters`. -/
def checkParams (m : Method) (params : ParamsMap) : Option ApiError :=
  match m.paramsCheck with
  | none => none
  | some valid => if valid params then none else some .invalidParameters

/-- Source `getObject(params[param], types)` inside `resolveParams`: the raw value
must be an id that resolves within the allowed types. -/
def getObjectVal (ctx : ApiContext) (v : ParamValue) (types : List String) :
    Option ApiObject :=
  match v with
  | .str i => getObject ctx (some i) (some types)
  | .obj _ => none

/-- The `forEach` of `resolveParams` over the `resolve` spec: a missing raw
id (`undefined`) skips the entry; `getObject` throws `NoSuchObject` out of
the loop (`none` result); otherwise the raw id is deleted, the object is
installed under the target key, and — unless the caller is an admin — the
entry's authorization check is queued. -/
def resolveGo (ctx : ApiContext) (fuel : Nat) (userId : String) (isAdmin : Bool) :
    List ResolveEntry → ParamsMap → List Bool →
    Option (ParamsMap × List Bool)
  | [], params, checks => some (params, checks)
  | e :: rest, params, checks =>
    match lookupA params e.param with
    | none => resolveGo ctx fuel userId isAdmin rest params checks
    | some v =>
      match getObjectVal ctx v e.types with
      | none => none
      | some o =>
        let params1 := setA (eraseA params e.param) e.key (.obj o)
        let checks1 :=
          if isAdmin then checks
          else checks ++
            [checkAuthorization ctx fuel userId o (e.permission.getD "administrate")]
        resolveGo ctx fuel userId isAdmin rest params1 checks1

/-- Source `resolveParams (method, params)`: nothing to do without a `resolve`
spec; a user is required; then the entries are processed and
`Bluebird.all` of the queued checks — any rejection — is wrapped as
`Unauthorized`, while a `NoSuchObject` thrown by `getObject` during the
loop propagates as-is. -/
def resolveParams (ctx : ApiContext) (fuel : Nat)
    (resolve : Option (List ResolveEntry)) (params : ParamsMap) :
    Except ApiError ParamsMap :=
  match resolve with
  | none => .ok params
  | some entries =>
    match ctx.user with
    | none => .error .unauthorized
    | some u =>
      match resolveGo ctx fuel u.id (u.hasPermission "admin") entries params [] with
      | none => .error .noSuchObject
      | some (params1, checks) =>
        if checks.all (fun c => c) then .ok params1
        else .error .unauthorized

/-- A normalized call result: `undefined` from the body becomes `true`. -/
inductive CallResult where
  | trueResult
  | value (n : Nat)
deriving DecidableEq, Repr

/-- Source `Api.call`: lookup, permission check, schema validation, parameter
resolution, then invocation; the second component records whether the
method body was invoked.  The per-call context construction and user fetch
happen before the pipeline; here the context arrives with its user already
attached. -/
def call (methods : List (String × Method)) (ctx : ApiContext) (fuel : Nat)
    (nm : String) (params : ParamsMap) :
    (Except ApiError CallResult) × Bool :=
  match lookupA methods nm with
  | none => (.error (.methodNotFound nm), false)
  | some m =>
    match checkPermission ctx.user m.permission with
    | some e => (.error e, false)
    | none =>
      match checkParams m params with
      | some e => (.error e, false)
      | none =>
        match resolveParams ctx fuel m.resolve params with
        | .error e => (.error e, false)
        | .ok params1 =>
          match m.body params1 with
          | .error e => (.error e, true)
          | .ok none => (.ok .trueResult, true)
          | .ok (some v) => (.ok (.value v), true)

end Api

/-!
## Concrete states used by the witnesses
-/

namespace Scheduler

open Assoc

def s1 : Schedule := { id := "s1", cron := "* * * * *", job := "j1", enabled := true }

def s2 : Schedule := { id := "s1", cron := "*/2 * * * *", job := "j2", enabled := true }

def stEmpty : SchedState :=
  { schedules := [], scheduleTable := [], cronJobs := [], nextTimer := 0 }

def stEnabled : SchedState :=
  { schedules := [("s1", s1)], scheduleTable := [("s1", true)],
    cronJobs := [("s1", 0)], nextTimer := 1 }

/-- A corrupted state: the entry is marked enabled but no cron handle is
stored, so `this._cronJobs[id].stop()` raises a `TypeError`. -/
def stBroken : SchedState :=
  { schedules := [("s1", s1)], scheduleTable := [("s1", true)],
    cronJobs := [], nextTimer := 0 }

theorem schedInv_stEmpty : SchedInv stEmpty := by
  refine ⟨?_, ?_, ?_, ?_, ?_, ?_⟩
  · simp [stEmpty, KeysND]
  · simp [stEmpty, KeysND]
  · simp [stEmpty, KeysND]
  · intro id
    simp [stEmpty, lookupA]
  · intro id
    simp [stEmpty, lookupA]
  · intro id t hl
    simp [stEmpty, lookupA] at hl

theorem schedInv_stEnabled : SchedInv stEnabled := by
  refine ⟨?_, ?_, ?_, ?_, ?_, ?_⟩
  · simp [stEnabled, KeysND]
  · simp [stEnabled, KeysND]
  · simp [stEnabled, KeysND]
  · intro id
    by_cases h : "s1" = id <;> simp [stEnabled, lookupA, h]
  · intro id
    by_cases h : "s1" = id <;> simp [stEnabled, lookupA, h]
  · intro id t hl
    by_cases h : "s1" = id
    · simp [stEnabled, lookupA, h] at hl
      simp [stEnabled]
      omega
    · simp [stEnabled, lookupA, h] at hl

end Scheduler

/-!
## The claims
-/

namespace Scheduler

open Assoc

/-- C2: every Scheduler operation — `add`, `remove`, `update`, `_enable`,
`_disable`, `disableAll` — preserves the runtime invariant `SchedInv`: for
every schedule id a cron-timer handle is stored exactly when the id's
runtime-table entry is marked enabled, and (the tables being genuine JS
objects, `KeysND`) at most one handle is stored per id.  `_enable` carries
its call-site precondition: it is only invoked by `_add`, right after the
schedule was inserted into the table. -/
theorem scheduler_ops_preserve_invariant :
    ∀ (op : SchedOp) (st : SchedState), SchedInv st → op.pre st →
      SchedInv (op.apply st).2 := by
  intro op st h hpre
  cases op with
  | addOp sch => exact inv_add h
  | removeOp id => exact inv_remove h id
  | updateOp sch => exact inv_update h sch
  | enableOp sch => exact inv_enable h hpre
  | disableOp id => exact inv_disable h id
  | disableAllOp => exact (inv_disableAll h).2

/-- Witness for C2: adding a fresh enabled schedule to the empty scheduler
keeps the invariant. -/
theorem scheduler_ops_preserve_invariant_witness :
    SchedInv ((SchedOp.addOp s1).apply stEmpty).2 :=
  scheduler_ops_preserve_invariant (SchedOp.addOp s1) stEmpty schedInv_stEmpty trivial

/-- C7: `add` on an id already present in the table throws
`ScheduleOverride` and returns the state completely unchanged — schedule
table, runtime table and timer set included. -/
theorem add_existing_id_fails_without_mutation :
    ∀ (st : SchedState) (sch : Schedule), exists_ st sch.id = true →
      add st sch = (some (JsError.scheduleOverride sch.id), st) := by
  intro st sch h
  rw [add, if_pos h]

/-- Witness for C7: re-adding `s1` to a scheduler that has it fails with
`ScheduleOverride` and mutates nothing. -/
theorem add_existing_id_fails_without_mutation_witness :
    add stEnabled s2 = (some (JsError.scheduleOverride "s1"), stEnabled) :=
  add_existing_id_fails_without_mutation stEnabled s2 (by decide)

/-- C8: `_disable` throws `NoSuchSchedule` when the id is absent (leaving
the state unchanged), `ScheduleNotEnabled` when present but not enabled
(likewise), and otherwise returns normally having discarded the cron
handle and marked the entry disabled. -/
theorem disable_cases :
    ∀ (st : SchedState) (id : String), SchedInv st →
      (exists_ st id = false →
        _disable st id = (some (JsError.noSuchSchedule id), st)) ∧
      (exists_ st id = true → isEnabled st id = false →
        _disable st id = (some (JsError.scheduleNotEnabled id), st)) ∧
      (exists_ st id = true → isEnabled st id = true →
        (_disable st id).1 = none ∧
        lookupA (_disable st id).2.cronJobs id = none ∧
        lookupA (_disable st id).2.scheduleTable id = some false) := by
  intro st id h
  refine ⟨?_, ?_, ?_⟩
  · intro hex
    rw [_disable, if_pos (by simp [hex])]
  · intro hex hen
    rw [_disable, if_neg (by simp [hex]), if_pos (by simp [hen])]
  · intro hex hen
    rw [disable_success h hex hen]
    exact ⟨rfl, by simp [lookupA_eraseA], by simp [lookupA_setA]⟩

/-- Witness for C8: disabling the enabled schedule `s1` succeeds, discards
its handle and marks it disabled. -/
theorem disable_cases_witness :
    (_disable stEnabled "s1").1 = none ∧
    lookupA (_disable stEnabled "s1").2.cronJobs "s1" = none ∧
    lookupA (_disable stEnabled "s1").2.scheduleTable "s1" = some false :=
  (disable_cases stEnabled "s1" schedInv_stEnabled).2.2 (by decide) (by decide)

theorem add_cron_lookup (st : SchedState) (sch : Schedule) :
    lookupA (_add st sch).cronJobs sch.id =
      if sch.enabled then some st.nextTimer else lookupA st.cronJobs sch.id := by
  rw [_add]
  by_cases he : sch.enabled <;> simp [he, _enable, lookupA_setA]

theorem update_enabled_eq {st : SchedState} {sch : Schedule}
    (h : SchedInv st) (hex : exists_ st sch.id = true)
    (hen : isEnabled st sch.id = true) :
    update st sch =
      (none, _add { st with cronJobs := eraseA st.cronJobs sch.id
                            scheduleTable := setA st.scheduleTable sch.id false } sch) := by
  rw [update, if_neg (by simp [hex]), if_pos hen, disable_success h hex hen]

theorem update_not_enabled_eq {st : SchedState} {sch : Schedule}
    (hex : exists_ st sch.id = true) (hen : ¬ isEnabled st sch.id = true) :
    update st sch = (none, _add st sch) := by
  rw [update, if_neg (by simp [hex]), if_neg hen]

/-- C6: `update` throws `NoSuchSchedule` when the id is absent (state
unchanged); when the id is present it returns normally, no handle of the
pre-state survives under the id (the old timer is stopped and discarded
before `_add` installs a fresh one), a new definition with
`enabled = false` leaves no handle at all, and at most one handle is
registered for the id afterwards. -/
theorem update_cases :
    ∀ (st : SchedState) (sch : Schedule), SchedInv st →
      (exists_ st sch.id = false →
        update st sch = (some (JsError.noSuchSchedule sch.id), st)) ∧
      (exists_ st sch.id = true →
        (update st sch).1 = none ∧
        (∀ t, lookupA st.cronJobs sch.id = some t →
          lookupA (update st sch).2.cronJobs sch.id ≠ some t) ∧
        (sch.enabled = false →
          lookupA (update st sch).2.cronJobs sch.id = none) ∧
        countKey (update st sch).2.cronJobs sch.id ≤ 1) := by
  intro st sch h
  constructor
  · intro hex
    rw [update, if_pos (by simp [hex])]
  · intro hex
    by_cases hen : isEnabled st sch.id = true
    · refine ⟨?_, ?_, ?_, countKey_le_one (inv_update h sch).ndCron sch.id⟩
      · rw [update_enabled_eq h hex hen]
      · intro t ht
        have hfr : t < st.nextTimer := h.handlesFresh sch.id t ht
        rw [update_enabled_eq h hex hen]
        simp only [add_cron_lookup]
        by_cases he : sch.enabled
        · simp only [he, if_pos rfl]
          intro hc
          cases hc
          omega
        · simp [he, lookupA_eraseA]
      · intro he
        rw [update_enabled_eq h hex hen]
        simp only [add_cron_lookup]
        simp [he, lookupA_eraseA]
    · have hnone : lookupA st.cronJobs sch.id = none :=
        cron_none_of_not_enabled h (by simpa using hen)
      refine ⟨?_, ?_, ?_, countKey_le_one (inv_update h sch).ndCron sch.id⟩
      · rw [update_not_enabled_eq hex hen]
      · intro t ht
        rw [hnone] at ht
        cases ht
      · intro he
        rw [update_not_enabled_eq hex hen]
        simp only [add_cron_lookup]
        simp [he, hnone]

/-- Witness for C6: updating the enabled schedule `s1` with a new enabled
definition returns normally and discards the old handle `0`. -/
theorem update_cases_witness :
    (update stEnabled s2).1 = none ∧
    lookupA (update stEnabled s2).2.cronJobs "s1" ≠ some 0 :=
  have h := (update_cases stEnabled s2 schedInv_stEnabled).2 (by decide)
  ⟨h.1, h.2.1 0 (by decide)⟩

/-- C1 (code bug): the guard of `remove`'s catch block,
`!exc instanceof SchedulerError`, is parsed by JavaScript as
`(!exc) instanceof SchedulerError`, which is `false` for every error, so
`remove` swallows every failure of the internal `_disable` step — also
failures that are not of `SchedulerError` kind, which the claim and the
spec say are re-raised.  On `stBroken` the disable step raises a
`TypeError` (not a `SchedulerError`), yet `remove` returns normally; the
`finally` block purges the id's table entries as claimed. -/
theorem remove_swallows_any_error :
    (_disable stBroken "s1").1 = some JsError.typeError ∧
    JsError.isSchedulerError JsError.typeError = false ∧
    (remove stBroken "s1").1 = none ∧
    lookupA (remove stBroken "s1").2.schedules "s1" = none ∧
    lookupA (remove stBroken "s1").2.scheduleTable "s1" = none := by
  refine ⟨by decide, by decide, by decide, by decide, by decide⟩

end Scheduler

namespace Api

open Assoc

def u0 : User := { id := "u0", hasPermission := fun p => p = "admin" }

def uNone : User := { id := "u1", hasPermission := fun _ => false }

def netObj : ApiObject := { id := "n1", type := "network", refs := [], vbds := [] }

def vmObj : ApiObject := { id := "vm1", type := "VM", refs := [], vbds := [] }

def vifObj : ApiObject :=
  { id := "vif1", type := "VIF", refs := [("$network", "n1"), ("$VM", "vm1")], vbds := [] }

def ctx0 : ApiContext :=
  { user := some u0,
    objects := [("n1", netObj), ("vm1", vmObj), ("vif1", vifObj)],
    permStore := fun _ _ _ => false }

def ctxNoAdmin : ApiContext :=
  { user := some uNone, objects := [("vm1", vmObj)], permStore := fun _ _ _ => false }

def ctxAnon : ApiContext :=
  { user := none, objects := [], permStore := fun _ _ _ => false }

def entryVm : ResolveEntry :=
  { key := "vm", param := "id", types := ["VM"], permission := some "administrate" }

def mVm : Method :=
  { permission := none, paramsCheck := none, resolve := some [entryVm],
    body := fun _ => .ok none }

def methods0 : List (String × Method) := [("vm.op", mVm)]

theorem resolveParams_some {ctx : ApiContext} {fuel : Nat} {u : User}
    (entries : List ResolveEntry) (params : ParamsMap) (hu : ctx.user = some u) :
    resolveParams ctx fuel (some entries) params =
      match resolveGo ctx fuel u.id (u.hasPermission "admin") entries params [] with
      | none => .error .noSuchObject
      | some (params1, checks) =>
        if checks.all (fun c => c) then .ok params1
        else .error .unauthorized := by
  simp only [resolveParams, hu]

theorem call_eq {methods : List (String × Method)} {ctx : ApiContext} {fuel : Nat}
    {nm : String} {params : ParamsMap} {m : Method}
    (hm : lookupA methods nm = some m)
    (hperm : checkPermission ctx.user m.permission = none)
    (hparams : checkParams m params = none) :
    call methods ctx fuel nm params =
      match resolveParams ctx fuel m.resolve params with
      | .error e => (.error e, false)
      | .ok params1 =>
        match m.body params1 with
        | .error e => (.error e, true)
        | .ok none => (.ok .trueResult, true)
        | .ok (some v) => (.ok (.value v), true) := by
  simp only [call, hm, hperm, hparams]

/-- C3: the declared-permission check — no declared `permission` passes with
or without a user; the empty ("login-only") permission passes exactly when
a user is attached; a non-empty permission passes exactly when a user is
attached and `user.hasPermission(permission)` holds; every failure is
`Unauthorized`. -/
theorem checkPermission_cases :
    ∀ (user : Option User) (p : String),
      checkPermission user none = none ∧
      (checkPermission user (some "") = none ↔ user.isSome = true) ∧
      (checkPermission user (some p) ≠ none →
        checkPermission user (some p) = some ApiError.unauthorized) ∧
      (p ≠ "" →
        (checkPermission user (some p) = none ↔
          ∃ u, user = some u ∧ u.hasPermission p = true)) := by
  intro user p
  refine ⟨rfl, ?_, ?_, ?_⟩
  · cases user <;> simp [checkPermission]
  · cases user with
    | none => intro _; rfl
    | some u =>
      by_cases hp : p = "" <;> by_cases h : u.hasPermission p <;>
        simp [checkPermission, hp, h]
  · intro hp
    cases user with
    | none => simp [checkPermission]
    | some u =>
      by_cases h : u.hasPermission p <;> simp [checkPermission, hp, h]

/-- Witness for C3: for the non-empty permission `"admin"` and an attached
user, the check passes exactly when the user holds that permission. -/
theorem checkPermission_cases_witness :
    checkPermission (some u0) (some "admin") = none ↔
      ∃ u, (some u0 : Option User) = some u ∧ u.hasPermission "admin" = true :=
  (checkPermission_cases (some u0) "admin").2.2.2 (by decide)

/-- C5: per-object authorization of a `VIF` — with its containing network
and VM both resolvable — succeeds exactly when the authorization check
succeeds for the containing network or for the containing VM (logical OR
across the two containment paths: `Bluebird.any`). -/
theorem vif_authorization_is_or :
    ∀ (ctx : ApiContext) (fuel : Nat) (userId permission : String)
      (vif network vm : ApiObject),
      vif.type = "VIF" →
      getObject ctx (vif.memberRef "$network") none = some network →
      getObject ctx (vif.memberRef "$VM") none = some vm →
      (checkAuthorization ctx (fuel + 1) userId vif permission = true ↔
        (checkAuthorization ctx fuel userId network permission = true ∨
         checkAuthorization ctx fuel userId vm permission = true)) := by
  intro ctx fuel userId permission vif network vm hty hnet hvm
  rw [checkAuthorization, hty]
  rw [if_neg (by decide), if_neg (by decide), if_neg (by decide),
    if_neg (by decide), if_neg (by decide), if_neg (by decide), if_pos rfl]
  rw [hnet, hvm]
  simp [Bool.or_eq_true]

/-- Witness for C5: for `vifObj` contained in the freely-authorized network
`netObj` and in `vmObj`, the OR characterization holds concretely. -/
theorem vif_authorization_is_or_witness :
    checkAuthorization ctx0 2 "u0" vifObj "administrate" = true ↔
      (checkAuthorization ctx0 1 "u0" netObj "administrate" = true ∨
       checkAuthorization ctx0 1 "u0" vmObj "administrate" = true) :=
  vif_authorization_is_or ctx0 1 "u0" "administrate" vifObj netObj vmObj
    (by decide) (by decide) (by decide)

/-- C4: for a call whose method declares a `resolve` spec (user attached,
not an admin, earlier pipeline stages passing, every processed entry's
`getObject` succeeding — `checks` being the queued per-entry authorization
results): if any entry's authorization check fails the whole call fails
with `Unauthorized` and the method body is never invoked; when all checks
pass the call proceeds to invocation. -/
theorem resolve_auth_gate :
    ∀ (methods : List (String × Method)) (ctx : ApiContext) (fuel : Nat)
      (nm : String) (params : ParamsMap) (m : Method)
      (entries : List ResolveEntry) (u : User)
      (params1 : ParamsMap) (checks : List Bool),
      lookupA methods nm = some m →
      ctx.user = some u →
      u.hasPermission "admin" = false →
      m.resolve = some entries →
      checkPermission ctx.user m.permission = none →
      checkParams m params = none →
      resolveGo ctx fuel u.id false entries params [] = some (params1, checks) →
      ((∃ c ∈ checks, c = false) →
        call methods ctx fuel nm params = (.error .unauthorized, false)) ∧
      ((∀ c ∈ checks, c = true) →
        (call methods ctx fuel nm params).2 = true) := by
  intro methods ctx fuel nm params m entries u params1 checks
    hm hu hadmin hres hperm hparams hgo
  have hrp : resolveParams ctx fuel m.resolve params =
      if checks.all (fun c => c) then Except.ok params1
      else Except.error ApiError.unauthorized := by
    rw [hres, resolveParams_some entries params hu, hadmin, hgo]
  rw [call_eq hm hperm hparams, hrp]
  cases hall : checks.all (fun c => c) with
  | false =>
    refine ⟨fun _ => by simp, fun hA => ?_⟩
    have : checks.all (fun c => c) = true :=
      List.all_eq_true.mpr (fun c hc => by simp [hA c hc])
    rw [hall] at this
    cases this
  | true =>
    refine ⟨fun hex => ?_, fun _ => ?_⟩
    · obtain ⟨c, hc, hcf⟩ := hex
      have := List.all_eq_true.mp hall c hc
      rw [hcf] at this
      cases this
    · rw [if_pos (rfl : (true : Bool) = true)]
      dsimp only
      cases hb : m.body params1 with
      | error e => rfl
      | ok v => cases v <;> rfl
  
/-- Witness for C4: a non-admin caller resolving a `VM` object whose
permission-store check denies — the call fails with `Unauthorized` and the
body is not invoked. -/
theorem resolve_auth_gate_witness :
    call methods0 ctxNoAdmin 1 "vm.op" [("id", ParamValue.str "vm1")] =
      (Except.error ApiError.unauthorized, false) :=
  (resolve_auth_gate methods0 ctxNoAdmin 1 "vm.op" [("id", ParamValue.str "vm1")]
      mVm [entryVm] uNone [("vm", ParamValue.obj vmObj)] [false]
      rfl rfl rfl rfl rfl rfl (by decide)).1
    ⟨false, by simp, rfl⟩

/-- C9: when a method declares a `resolve` spec and no user is attached to
the call context, parameter resolution fails with `Unauthorized` before
any object lookup or authorization check — for every object store and
permission store — even when the method declares no `permission`. -/
theorem resolve_requires_user :
    ∀ (methods : List (String × Method)) (ctx : ApiContext) (fuel : Nat)
      (nm : String) (params : ParamsMap) (m : Method)
      (entries : List ResolveEntry),
      lookupA methods nm = some m →
      ctx.user = none →
      m.permission = none →
      m.resolve = some entries →
      checkParams m params = none →
      resolveParams ctx fuel m.resolve params = .error .unauthorized ∧
      call methods ctx fuel nm params = (.error .unauthorized, false) := by
  intro methods ctx fuel nm params m entries hm hu hpermN hres hparams
  have hrp : resolveParams ctx fuel m.resolve params = .error .unauthorized := by
    rw [hres]
    simp only [resolveParams, hu]
  have hperm : checkPermission ctx.user m.permission = none := by
    rw [hpermN]
    rfl
  refine ⟨hrp, ?_⟩
  rw [call_eq hm hperm hparams, hrp]

/-- Witness for C9: an anonymous call to the resolve-declaring method fails
with `Unauthorized` without invoking the body. -/
theorem resolve_requires_user_witness :
    call methods0 ctxAnon 1 "vm.op" [] = (Except.error ApiError.unauthorized, false) :=
  (resolve_requires_user methods0 ctxAnon 1 "vm.op" [] mVm [entryVm]
    rfl rfl rfl rfl rfl).2

/-- C10: a `resolve` entry whose raw-id parameter is absent (`undefined`) in
`params` is skipped entirely — processing the spec with the entry equals
processing it without the entry, whatever its target key, type set or
permission, so no lookup, no existence/type check and no authorization
check happens for it, and the remaining entries proceed. -/
theorem absent_param_skips_entry :
    ∀ (ctx : ApiContext) (fuel : Nat) (userId : String) (isAdmin : Bool)
      (e : ResolveEntry) (rest : List ResolveEntry) (params : ParamsMap)
      (checks : List Bool),
      lookupA params e.param = none →
      (resolveGo ctx fuel userId isAdmin (e :: rest) params checks =
        resolveGo ctx fuel userId isAdmin rest params checks) ∧
      (resolveParams ctx fuel (some (e :: rest)) params =
        resolveParams ctx fuel (some rest) params) := by
  intro ctx fuel userId isAdmin e rest params checks habs
  have hgo : ∀ (uid : String) (adm : Bool) (cs : List Bool),
      resolveGo ctx fuel uid adm (e :: rest) params cs =
        resolveGo ctx fuel uid adm rest params cs := by
    intro uid adm cs
    rw [resolveGo, habs]
  refine ⟨hgo userId isAdmin checks, ?_⟩
  simp only [resolveParams]
  cases hu : ctx.user with
  | none => rfl
  | some u =>
    dsimp only
    rw [hgo]

/-- Witness for C10: with an empty `params` object the single entry is
skipped and resolution behaves as if the spec were empty. -/
theorem absent_param_skips_entry_witness :
    resolveParams ctx0 1 (some [entryVm]) [] = resolveParams ctx0 1 (some []) [] :=
  (absent_param_skips_entry ctx0 1 "u0" false entryVm [] [] [] rfl).2

end Api
